import Mathlib

/-!
Verification of the zeabur-monitor credential/session/notification core.

The JavaScript source is shallowly embedded: each relevant function becomes a
pure Lean function, with I/O and failure modelled explicitly (oracles for
network/query outcomes, `Except` for functions that can throw, `Option` for
JavaScript `null`/`undefined`). JavaScript truthiness of an optional string
(`undefined`, `null` and `""` are falsy) is captured by `truthy`.
-/

namespace Zeabur

/-- Truthiness of an optional string value: JavaScript treats `undefined`,
`null` and the empty string as falsy, every other string as truthy. -/
def truthy : Option String → Bool
  | none => false
  | some s => s ≠ ""

/-! ### Notification dispatcher (src/notifications.js) -/

/-- A webhook registration as held in `webhookConfigs`. `events` is `none`
when the JS object has no `events` field (or it is `null`); an array — even
an empty one — is `some`. In JavaScript an empty array is truthy. -/
structure WebhookConfig where
  id : String
  url : String
  events : Option (List String)
  secret : Option String
deriving Repr, DecidableEq

/-- The filter predicate from `sendWebhook`:
`!config.events || config.events.includes(event)`. An absent (`null`/
`undefined`) events field is falsy, hence matches everything; an array is
truthy (even `[]`), so only membership matters. -/
def webhookMatches (event : String) (c : WebhookConfig) : Bool :=
  match c.events with
  | none => true
  | some evs => evs.contains event

/-- The set of registrations `sendWebhook` maps `sendToWebhook` over:
`webhookConfigs.filter(config => !config.events || config.events.includes(event))`. -/
def deliveredTargets (configs : List WebhookConfig) (event : String) :
    List WebhookConfig :=
  configs.filter (webhookMatches event)

/-- Aggregate result of `sendWebhook`. -/
structure SendResult where
  success : Nat
  failed : Nat
deriving Repr, DecidableEq

/-- The aggregate count returned by `sendWebhook(event, data)`. The outcome
of each per-target delivery (`sendToWebhook` resolving with a 2xx vs
rejecting) is an oracle `delivery`; `Promise.allSettled` counts fulfilled
and rejected entries over the filtered registration list. -/
def sendWebhook (configs : List WebhookConfig)
    (delivery : WebhookConfig → Bool) (event : String) : SendResult :=
  let matched := deliveredTargets configs event
  { success := (matched.filter (fun c => delivery c)).length
    failed := (matched.filter (fun c => !delivery c)).length }

/-! ### Session store, memory mode (src/session-store.js) -/

/-- `SESSION_DURATION = 10 * 24 * 60 * 60 * 1000` (10 days, ms). -/
def SESSION_DURATION : Nat := 10 * 24 * 60 * 60 * 1000

/-- A stored session record `{userId, createdAt, expiresAt}`. -/
structure Session where
  userId : String
  createdAt : Nat
  expiresAt : Nat
deriving Repr, DecidableEq

/-- The in-memory session `Map`, modelled as an association list where the
first entry for a key is its value. -/
def SessionMap := List (String × Session)

/-- `Map.get`: the value of the first entry with the given key. -/
def mapGet (m : SessionMap) (k : String) : Option Session :=
  (m.find? (fun p => p.1 = k)).map Prod.snd

/-- `Map.set`: replaces any entry with the same key. -/
def mapSet (m : SessionMap) (k : String) (v : Session) : SessionMap :=
  (k, v) :: m.filter (fun p => p.1 ≠ k)

/-- `Map.delete`. -/
def mapDelete (m : SessionMap) (k : String) : SessionMap :=
  m.filter (fun p => p.1 ≠ k)

/-- `createSession(userId)` in memory mode: generates a token and stores
`{userId, createdAt: now, expiresAt: now + SESSION_DURATION}`. Token
generation (`'session_' + randomBytes`) is modelled by passing the generated
token in; it is never empty. Returns the updated store. -/
def createSession (store : SessionMap) (now : Nat) (token : String)
    (userId : String) : SessionMap :=
  mapSet store token ⟨userId, now, now + SESSION_DURATION⟩

/-- `destroySession(token)` in memory mode: `memorySessions.delete(token)`. -/
def destroySession (store : SessionMap) (token : String) : SessionMap :=
  mapDelete store token

/-- `validateSession(token)` in memory mode. `if (!token) return null`
covers both an absent (`none`) and an empty token. A found session past its
`expiresAt` (`Date.now() > session.expiresAt`) is destroyed and `null`
returned; otherwise the session is returned. The result pairs the returned
value with the store after the call. -/
def validateSession (store : SessionMap) (now : Nat) (token : Option String) :
    Option Session × SessionMap :=
  match token with
  | none => (none, store)
  | some t =>
    if t = "" then (none, store)
    else
      match mapGet store t with
      | none => (none, store)
      | some s =>
        if s.expiresAt < now then (none, destroySession store t)
        else (some s, store)

/-! ### Password utilities (src/password-utils.js) -/

/-- The `s.startsWith('$2')` test, written on the character list: true iff
the first two characters of `s` are `$` and `2`. -/
def startsWithBcryptMarker (s : String) : Bool :=
  s.data.take 2 = ['$', '2']

/-- `isHashed(password)`: `false` for a falsy or non-string value, otherwise
`password.startsWith('$2')`. -/
def isHashed (password : Option String) : Bool :=
  match password with
  | none => false
  | some s => if s = "" then false else startsWithBcryptMarker s

/-- `verifyPassword(password, hash)`: a stored value that does not start
with `'$2'` is legacy plaintext and is compared by `===`; otherwise
`bcrypt.compare` (a black box, passed in as `bcryptCompare`) decides. -/
def verifyPassword (bcryptCompare : String → String → Bool)
    (password hash : String) : Bool :=
  if !(startsWithBcryptMarker hash) then password = hash
  else bcryptCompare password hash

/-- The legacy-migration step of the `/api/verify-password` handler in the
server.js section of src/Dockerfile: a falsy stored credential is rejected
before verification (`if (!savedPassword) return`); on a successful
`verifyPassword`, if the stored value is not hashed the handler runs
`await saveAdminPassword(password)` — `savePassword(hashPassword(password))`
— and discards its boolean outcome, so on a failed write (`saveOk = false`,
the `savePassword` catch branches) the stored credential remains as it was.
`bcryptHash` is the black-box `bcrypt.hash`. Returns (login success,
stored credential afterwards). -/
def loginAndMigrate (bcryptHash : String → String)
    (bcryptCompare : String → String → Bool) (saveOk : Bool)
    (password stored : String) : Bool × String :=
  if stored = "" then (false, stored)
  else if verifyPassword bcryptCompare password stored then
    if !(isHashed (some stored)) then
      (true, if saveOk then bcryptHash password else stored)
    else (true, stored)
  else (false, stored)

/-! ### Account persistence (src/unnamed/part_002: loadAccounts / saveAccounts)

Accounts as JavaScript objects `{name, token?, encryptedToken?}`. The
encryption routines `encryptFn`/`decryptFn` (secret already applied) can
throw, hence `Except`. Ciphertexts are modelled as strings. -/

/-- An account object as passed to / returned from the persistence layer. -/
structure Account where
  name : String
  token : Option String
  encryptedToken : Option String
deriving Repr, DecidableEq

/-- The observable part of an account for the replace-semantics contract:
its name and clear token. -/
def accountView (a : Account) : String × Option String :=
  (a.name, a.token)

/-- Contents of the accounts JSON file: absent, unreadable/unparsable, or a
parsed account list. -/
inductive FileContent
  | missing
  | corrupt
  | ok (accounts : List Account)
deriving Repr, DecidableEq

/-- The per-account mapping applied by file-mode `saveAccounts` when
encryption is enabled: a truthy `token` is encrypted, the clear `token`
dropped and `encryptedToken` stored; an encryption failure is caught and
the account stored unchanged; a falsy `token` is stored unchanged. -/
def encryptAccountForSave (encryptFn : String → Except String String)
    (a : Account) : Account :=
  if truthy a.token then
    match encryptFn (a.token.getD "") with
    | Except.ok ct => { name := a.name, token := none, encryptedToken := some ct }
    | Except.error _ => a
  else a

/-- File-mode `saveAccounts`: maps the accounts (encrypting when enabled),
then overwrites the whole file. `writeOk` is the outcome of
`fs.writeFileSync`; a throw is caught and `false` returned with the file
unchanged. -/
def fileSaveAccounts (enc : Bool) (encryptFn : String → Except String String)
    (accounts : List Account) (writeOk : Bool) (st : FileContent) :
    Bool × FileContent :=
  let toSave := if enc then accounts.map (encryptAccountForSave encryptFn)
                else accounts
  if writeOk then (true, FileContent.ok toSave) else (false, st)

/-- The per-account mapping applied by file-mode `loadAccounts` when
encryption is enabled: a truthy `encryptedToken` is decrypted into `token`
(clearing `encryptedToken`); a decryption failure is caught and the account
returned unchanged. -/
def decryptAccountOnLoad (decryptFn : String → Except String String)
    (a : Account) : Account :=
  if truthy a.encryptedToken then
    match decryptFn (a.encryptedToken.getD "") with
    | Except.ok t => { name := a.name, token := some t, encryptedToken := none }
    | Except.error _ => a
  else a

/-- File-mode `loadAccounts`: a missing file yields `[]`
(`fs.existsSync` false falls through to `return []`); a read/parse throw is
caught and `[]` returned; otherwise the parsed list, decrypted per record
when encryption is enabled. -/
def fileLoadAccounts (enc : Bool) (decryptFn : String → Except String String)
    (st : FileContent) : List Account :=
  match st with
  | FileContent.missing => []
  | FileContent.corrupt => []
  | FileContent.ok accounts =>
      if enc then accounts.map (decryptAccountOnLoad decryptFn)
      else accounts

/-- A row of the relational `accounts` table. `id` is the SERIAL primary
key; `userId` is `none` for SQL NULL. -/
structure DbAccountRow where
  id : Nat
  userId : Option Nat
  name : String
  token : Option String
  encryptedToken : Option String
deriving Repr, DecidableEq

/-- The relational accounts table plus the next SERIAL id. -/
structure DbState where
  rows : List DbAccountRow
  nextId : Nat
deriving Repr, DecidableEq

/-- Rows ordered by the SERIAL `id`, as `ORDER BY id` produces. -/
def sortById (rows : List DbAccountRow) : List DbAccountRow :=
  List.insertionSort (fun a b => a.id ≤ b.id) rows

/-- Well-formedness of a table state: rows are stored in strictly
increasing id order (SERIAL assignment) and every id is below `nextId`. -/
def DbState.WF (st : DbState) : Prop :=
  st.rows.Pairwise (fun a b => a.id < b.id) ∧
    ∀ r ∈ st.rows, r.id < st.nextId

/-- The row → account mapping of relational `loadAccounts`: each row
becomes `{name, token}`; with encryption enabled and a non-null
`encrypted_token` the ciphertext is decrypted, a failure being caught and
the clear `token` column used as fallback. -/
def dbDecryptRow (enc : Bool) (decryptFn : String → Except String String)
    (r : DbAccountRow) : Account :=
  if enc && truthy r.encryptedToken then
    match decryptFn (r.encryptedToken.getD "") with
    | Except.ok t => { name := r.name, token := some t, encryptedToken := none }
    | Except.error _ => { name := r.name, token := r.token, encryptedToken := none }
  else { name := r.name, token := r.token, encryptedToken := none }

/-- Relational `loadAccounts(userId)`: a query error (`qfail`) is caught
and `[]` returned. With a truthy `userId` the query adds
`WHERE user_id = $1`; with a null `userId` there is no WHERE clause at all,
so every row of the table is returned. Rows come back `ORDER BY id`. -/
def dbLoadAccounts (enc : Bool) (decryptFn : String → Except String String)
    (scope : Option Nat) (qfail : Bool) (st : DbState) : List Account :=
  if qfail then []
  else
    match scope with
    | some uid =>
        ((sortById st.rows).filter (fun r => r.userId = some uid)).map
          (dbDecryptRow enc decryptFn)
    | none => (sortById st.rows).map (dbDecryptRow enc decryptFn)

/-- The insert loop of relational `saveAccounts`, run inside the open
transaction. `qfail k` is the outcome of the k-th query of the transaction
(`true` = the query raises). For each account, when encryption is enabled
and the token truthy, the encrypted INSERT is attempted; the surrounding
`catch` covers both an `encryptFn` throw and a failed encrypted INSERT, in
which case a clear INSERT is attempted as fallback; a failure of the clear
INSERT aborts the transaction (`none`). Returns the pending inserted rows,
the next SERIAL id and the next query number. -/
def insertLoop (enc : Bool) (encryptFn : String → Except String String)
    (scope : Option Nat) (qfail : Nat → Bool) :
    List Account → List DbAccountRow → Nat → Nat →
    Option (List DbAccountRow × Nat × Nat)
  | [], acc, nid, q => some (acc, nid, q)
  | a :: rest, acc, nid, q =>
    if enc && truthy a.token then
      match encryptFn (a.token.getD "") with
      | Except.ok ct =>
        if qfail q then
          if qfail (q + 1) then none
          else insertLoop enc encryptFn scope qfail rest
            (acc ++ [⟨nid, scope, a.name, a.token, none⟩]) (nid + 1) (q + 2)
        else insertLoop enc encryptFn scope qfail rest
          (acc ++ [⟨nid, scope, a.name, none, some ct⟩]) (nid + 1) (q + 1)
      | Except.error _ =>
        if qfail q then none
        else insertLoop enc encryptFn scope qfail rest
          (acc ++ [⟨nid, scope, a.name, a.token, none⟩]) (nid + 1) (q + 1)
    else
      if qfail q then none
      else insertLoop enc encryptFn scope qfail rest
        (acc ++ [⟨nid, scope, a.name, a.token, none⟩]) (nid + 1) (q + 1)

/-- Relational `saveAccounts(accounts, ..., userId)`: one transaction that
deletes the rows of the scope (`WHERE user_id = $1`, or
`WHERE user_id IS NULL` for a null scope) — query number 0 — then inserts
the new accounts, and commits (the query after the last insert). Any query
failure rolls the transaction back: the call returns `false` and the table
is left as it was. -/
def dbSaveAccounts (enc : Bool) (encryptFn : String → Except String String)
    (scope : Option Nat) (accounts : List Account) (qfail : Nat → Bool)
    (st : DbState) : Bool × DbState :=
  if qfail 0 then (false, st)
  else
    match insertLoop enc encryptFn scope qfail accounts [] st.nextId 1 with
    | none => (false, st)
    | some (ins, nid, q) =>
      if qfail q then (false, st)
      else (true, ⟨st.rows.filter (fun r => !(r.userId = scope : Bool)) ++ ins, nid⟩)

/-- The rows a failure-free run of the insert loop adds for `accounts`,
starting at SERIAL id `nid`: one row per account, ids consecutive, the
`user_id` column set to the scope; a truthy token is stored encrypted when
encryption is enabled and `encryptFn` succeeds, in clear otherwise. -/
def rowsOf (enc : Bool) (encryptFn : String → Except String String)
    (scope : Option Nat) : List Account → Nat → List DbAccountRow
  | [], _ => []
  | a :: rest, nid =>
    (if enc && truthy a.token then
      match encryptFn (a.token.getD "") with
      | Except.ok ct => (⟨nid, scope, a.name, none, some ct⟩ : DbAccountRow)
      | Except.error _ => ⟨nid, scope, a.name, a.token, none⟩
    else ⟨nid, scope, a.name, a.token, none⟩) :: rowsOf enc encryptFn scope rest (nid + 1)

/-! ### Users and webhooks (src/unnamed/part_002: createUser / deleteUser /
getWebhooks / saveWebhook / deleteWebhook) -/

/-- A user record of the file backend (`users.json`). -/
structure FileUser where
  id : Nat
  username : String
  passwordHash : String
  role : String
  createdAt : Nat
deriving Repr, DecidableEq

/-- A webhook registration record (`webhooks.json` / `webhooks` table). -/
structure Webhook where
  id : String
  userId : Option Nat
  name : String
  url : String
deriving Repr, DecidableEq

/-- The three file-backend stores a user can own data in. -/
structure FileStore where
  users : List FileUser
  accountsFile : FileContent
  webhooks : List Webhook
deriving Repr, DecidableEq

/-- File-mode `createUser(username, passwordHash, role)`: rejects a
duplicate username (linear scan), otherwise assigns
`id = users.length + 1` and appends. Errors are thrown
(`new Error('用户名已存在')`), hence `Except`. -/
def fileCreateUser (username passwordHash role : String) (now : Nat)
    (users : List FileUser) : Except String (Nat × List FileUser) :=
  if users.any (fun u => u.username = username) then
    Except.error "duplicate username"
  else
    Except.ok (users.length + 1,
      users ++ [⟨users.length + 1, username, passwordHash, role, now⟩])

/-- File-mode `deleteUser(userId)` acting on the whole file store: it loads
`users.json`, splices out the first user with the given id and rewrites the
users file. It touches no other file — the user's accounts and webhooks
stay as they are. -/
def fileDeleteUser (uid : Nat) (st : FileStore) : Bool × FileStore :=
  if st.users.any (fun u => u.id = uid) then
    (true, { st with users := st.users.eraseP (fun u => u.id = uid) })
  else (false, st)

/-- A user row of the relational backend. -/
structure DbUserRow where
  id : Nat
  username : String
  passwordHash : String
  role : String
deriving Repr, DecidableEq

/-- The relational tables a user can own rows in. Per `createTables`,
`accounts.user_id` and `webhooks.user_id` both carry
`REFERENCES users(id) ON DELETE CASCADE`. -/
structure DbFullState where
  users : List DbUserRow
  accounts : List DbAccountRow
  webhooks : List Webhook
deriving Repr, DecidableEq

/-- Relational `deleteUser(userId)`: `DELETE FROM users WHERE id = $1`,
returning `rowCount > 0`; the schema's ON DELETE CASCADE removes the
accounts and webhooks rows referencing the deleted user. -/
def dbDeleteUser (uid : Nat) (st : DbFullState) : Bool × DbFullState :=
  (st.users.any (fun u => u.id = uid),
   { users := st.users.filter (fun u => u.id ≠ uid),
     accounts := st.accounts.filter (fun r => r.userId ≠ some uid),
     webhooks := st.webhooks.filter (fun w => w.userId ≠ some uid) })

/-! ### Usage history (src/unnamed/part_002: recordUsage / getUsageHistory)

Timestamps are milliseconds since epoch, as `Int` (so `now - 30 days` never
clamps). -/

/-- `30 * 24 * 60 * 60 * 1000` ms. -/
def THIRTY_DAYS_MS : Int := 30 * 24 * 60 * 60 * 1000

/-- A usage record as stored in `usage-history.json` and returned by
`getUsageHistory`. Amounts are modelled as integers. -/
structure UsageRecord where
  accountName : String
  usageAmount : Int
  recordedAt : Int
deriving Repr, DecidableEq

/-- File-mode `recordUsage(accountName, usageAmount)`: appends the new
record at time `now`, then keeps only records strictly newer than
`now - 30 days` and rewrites the file — every write physically prunes. -/
def fileRecordUsage (now : Int) (name : String) (amount : Int)
    (hist : List UsageRecord) : List UsageRecord :=
  (hist ++ [UsageRecord.mk name amount now]).filter
    (fun h => h.recordedAt > now - THIRTY_DAYS_MS)

/-- File-mode `getUsageHistory(accountName, days)`: filters to records
newer than `now - days` matching the optional account name, sorted
ascending by `recordedAt` (`sort((a, b) => a - b)` on the dates). -/
def fileGetUsageHistory (now : Int) (accountName : Option String)
    (days : Int) (hist : List UsageRecord) : List UsageRecord :=
  List.insertionSort (fun a b => a.recordedAt ≤ b.recordedAt)
    (hist.filter (fun h =>
      h.recordedAt > now - days * (24 * 60 * 60 * 1000) &&
        (accountName.isNone || accountName = some h.accountName)))

/-- A row of the relational `usage_history` table. -/
structure DbUsageRow where
  id : Nat
  accountName : String
  usageAmount : Int
  recordedAt : Int
deriving Repr, DecidableEq

/-- The relational usage table plus the next SERIAL id. -/
structure DbUsageState where
  rows : List DbUsageRow
  nextId : Nat
deriving Repr, DecidableEq

/-- Relational `recordUsage(accountName, usageAmount)`: a plain INSERT with
`recorded_at` defaulting to the current timestamp. Nothing is ever
deleted. -/
def dbRecordUsage (now : Int) (name : String) (amount : Int)
    (st : DbUsageState) : DbUsageState :=
  ⟨st.rows ++ [⟨st.nextId, name, amount, now⟩], st.nextId + 1⟩

/-- Relational `getUsageHistory(accountName, days)`: selects rows with
`recorded_at > now - days` (and the account name when given),
`ORDER BY recorded_at`, without deleting anything. -/
def dbGetUsageHistory (now : Int) (accountName : Option String) (days : Int)
    (st : DbUsageState) : List UsageRecord :=
  (List.insertionSort (fun a b => a.recordedAt ≤ b.recordedAt)
    (st.rows.filter (fun r =>
      r.recordedAt > now - days * (24 * 60 * 60 * 1000) &&
        (accountName.isNone || accountName = some r.accountName)))).map
    (fun r => UsageRecord.mk r.accountName r.usageAmount r.recordedAt)

/-! ## Theorems -/

/-- C1 counterexample: with registrations A(events=["service_down"]) and
B(events=[]), `sendWebhook("login_failed", ...)` delivers to nobody — an
empty `events` array is truthy in JavaScript, so B is filtered out — and
returns {success: 0, failed: 0}, not the claimed delivery to B with
{success: 1, failed: 0}, even though every endpoint would return 2xx. -/
theorem C1_counterexample :
    deliveredTargets
        [⟨"idA", "https://a.example/hook", some ["service_down"], none⟩,
         ⟨"idB", "https://b.example/hook", some [], none⟩] "login_failed" = [] ∧
    sendWebhook
        [⟨"idA", "https://a.example/hook", some ["service_down"], none⟩,
         ⟨"idB", "https://b.example/hook", some [], none⟩]
        (fun _ => true) "login_failed" = ⟨0, 0⟩ ∧
    sendWebhook
        [⟨"idA", "https://a.example/hook", some ["service_down"], none⟩,
         ⟨"idB", "https://b.example/hook", some [], none⟩]
        (fun _ => true) "login_failed" ≠ ⟨1, 0⟩ := by
  refine ⟨by decide, by decide, by decide⟩

/-- C1 (amended): `sendWebhook(eventType, data)` delivers to exactly those
registered webhooks whose `events` field is absent or contains the event
type — a registration with an empty `events` array receives nothing — and
the returned {success, failed} aggregates the per-target outcomes over
exactly those deliveries, so in the concrete A/B case above the result is
{success: 0, failed: 0}. -/
theorem C1_filtering (configs : List WebhookConfig)
    (delivery : WebhookConfig → Bool) (event : String) :
    (∀ c, c ∈ deliveredTargets configs event ↔
        c ∈ configs ∧
          (c.events = none ∨ ∃ evs, c.events = some evs ∧ event ∈ evs)) ∧
    (sendWebhook configs delivery event).success =
      ((deliveredTargets configs event).filter (fun c => delivery c)).length ∧
    (sendWebhook configs delivery event).failed =
      ((deliveredTargets configs event).filter (fun c => !delivery c)).length ∧
    (sendWebhook configs delivery event).success +
        (sendWebhook configs delivery event).failed =
      (deliveredTargets configs event).length := by
  refine ⟨?_, rfl, rfl, ?_⟩
  · intro c
    simp only [deliveredTargets, List.mem_filter, webhookMatches]
    constructor
    · rintro ⟨hc, hm⟩
      refine ⟨hc, ?_⟩
      cases hevs : c.events with
      | none => exact Or.inl rfl
      | some evs =>
        rw [hevs] at hm
        exact Or.inr ⟨evs, rfl, List.elem_iff.mp hm⟩
    · rintro ⟨hc, hm | ⟨evs, hevs, hmem⟩⟩
      · exact ⟨hc, by rw [hm]⟩
      · exact ⟨hc, by rw [hevs]; exact List.elem_iff.mpr hmem⟩
  · exact (List.length_eq_length_filter_add (fun c => delivery c)).symm

/-- Looking a key up after deleting it finds nothing. -/
theorem mapGet_mapDelete (m : SessionMap) (k : String) :
    mapGet (mapDelete m k) k = none := by
  have h : List.find? (fun p => decide (p.1 = k)) (mapDelete m k) = none := by
    rw [List.find?_eq_none]
    intro x hx
    have := (List.mem_filter.mp hx).2
    simpa using this
  simp [mapGet, h]

/-- Looking a key up right after setting it yields the stored value. -/
theorem mapGet_mapSet (m : SessionMap) (k : String) (v : Session) :
    mapGet (mapSet m k v) k = some v := by
  simp [mapGet, mapSet, List.find?]

/-- C2: `validateSession` returns null for an absent, empty or unknown
token; a found session past its `expiresAt` is destroyed (a subsequent
lookup finds nothing) and null returned; otherwise the full session record
is returned. A session is valid immediately after `createSession`, and a
destroyed session never validates again. -/
theorem C2_validateSession (store : SessionMap) (now t0 : Nat)
    (token userId : String) (s : Session) :
    (validateSession store now none = (none, store)) ∧
    (validateSession store now (some "") = (none, store)) ∧
    (mapGet store token = none →
      validateSession store now (some token) = (none, store)) ∧
    (token ≠ "" → mapGet store token = some s → s.expiresAt < now →
      validateSession store now (some token) =
          (none, destroySession store token) ∧
        mapGet (destroySession store token) token = none) ∧
    (token ≠ "" → mapGet store token = some s → ¬ s.expiresAt < now →
      validateSession store now (some token) = (some s, store)) ∧
    (token ≠ "" →
      validateSession (createSession store t0 token userId) t0 (some token) =
        (some ⟨userId, t0, t0 + SESSION_DURATION⟩,
         createSession store t0 token userId)) ∧
    (∀ later, validateSession (destroySession store token) later (some token) =
      (none, destroySession store token)) := by
  refine ⟨rfl, rfl, ?_, ?_, ?_, ?_, ?_⟩
  · intro hget
    by_cases ht : token = ""
    · simp [validateSession, ht]
    · simp [validateSession, ht, hget]
  · intro ht hget hexp
    constructor
    · simp [validateSession, ht, hget, hexp]
    · exact mapGet_mapDelete store token
  · intro ht hget hexp
    simp [validateSession, ht, hget, hexp]
  · intro ht
    have hget := mapGet_mapSet store token
      (⟨userId, t0, t0 + SESSION_DURATION⟩ : Session)
    have hexp : ¬ (t0 + SESSION_DURATION < t0) := by omega
    simp [validateSession, createSession, ht, hget, hexp, destroySession]
  · intro later
    by_cases ht : token = ""
    · simp [validateSession, ht]
    · simp [validateSession, ht, mapGet_mapDelete store token, destroySession]

/-- C2 witness: the theorem instantiated at a one-session store, with every
hypothesis discharged at concrete values. -/
theorem C2_witness :
    (validateSession [("session_ab", ⟨"admin", 0, 7⟩)] 10 (some "session_ab") =
      (none, destroySession [("session_ab", ⟨"admin", 0, 7⟩)] "session_ab")) ∧
    (validateSession [("session_ab", ⟨"admin", 0, 7⟩)] 5 (some "session_ab") =
      (some ⟨"admin", 0, 7⟩, [("session_ab", ⟨"admin", 0, 7⟩)])) ∧
    (validateSession (createSession [] 100 "session_cd" "u1") 100
        (some "session_cd") =
      (some ⟨"u1", 100, 100 + SESSION_DURATION⟩,
       createSession [] 100 "session_cd" "u1")) ∧
    (∀ later,
      validateSession (destroySession [("session_ab", ⟨"admin", 0, 7⟩)]
          "session_ab") later (some "session_ab") =
        (none, destroySession [("session_ab", ⟨"admin", 0, 7⟩)] "session_ab")) := by
  have h1 := C2_validateSession [("session_ab", ⟨"admin", 0, 7⟩)] 10 0
    "session_ab" "admin" ⟨"admin", 0, 7⟩
  have h2 := C2_validateSession [("session_ab", ⟨"admin", 0, 7⟩)] 5 0
    "session_ab" "admin" ⟨"admin", 0, 7⟩
  have h3 := C2_validateSession [] 0 100 "session_cd" "u1" ⟨"u1", 0, 0⟩
  refine ⟨(h1.2.2.2.1 (by decide) (by decide) (by decide)).1,
          h2.2.2.2.2.1 (by decide) (by decide) (by decide),
          h3.2.2.2.2.2.1 (by decide),
          h1.2.2.2.2.2.2⟩

/-- C6: for a stored admin credential that is legacy plaintext (not in
hashed format), `verifyPassword` succeeds exactly by direct string
equality; a successful login over such a credential triggers the re-save
as a bcrypt hash, whose outcome the handler discards: when the write
succeeds the stored value afterwards satisfies `isHashed` and differs
from the original plaintext, and when the write fails the stored value
remains the original plaintext. `hfmt` records the bcrypt output format
(hashes start with `$2`, as the repository's own tests assert). -/
theorem C6_legacyPasswordMigration (bcryptHash : String → String)
    (bcryptCompare : String → String → Bool) (saveOk : Bool)
    (password stored : String)
    (hplain : isHashed (some stored) = false)
    (hfmt : startsWithBcryptMarker (bcryptHash password) = true) :
    (verifyPassword bcryptCompare password stored = true ↔ password = stored) ∧
    (password = stored → stored ≠ "" →
      (loginAndMigrate bcryptHash bcryptCompare saveOk password stored).1 =
        true ∧
      (saveOk = true →
        isHashed (some (loginAndMigrate bcryptHash bcryptCompare saveOk
          password stored).2) = true ∧
        (loginAndMigrate bcryptHash bcryptCompare saveOk password
          stored).2 ≠ stored ∧
        (loginAndMigrate bcryptHash bcryptCompare saveOk password stored).2 =
          bcryptHash password) ∧
      (saveOk = false →
        (loginAndMigrate bcryptHash bcryptCompare saveOk password stored).2 =
          stored)) := by
  have hmark : startsWithBcryptMarker stored = false := by
    by_cases hs : stored = ""
    · subst hs; decide
    · simpa [isHashed, hs] using hplain
  have hverify : ∀ b : String → String → Bool,
      verifyPassword b password stored = (password = stored : Bool) := by
    intro b
    simp [verifyPassword, hmark]
  have hne : bcryptHash password ≠ "" := by
    intro h
    rw [h] at hfmt
    exact absurd hfmt (by decide)
  refine ⟨by rw [hverify]; simp, ?_⟩
  intro heq hne0
  have hv : verifyPassword bcryptCompare password stored = true := by
    rw [hverify]; simp [heq]
  have hrun : loginAndMigrate bcryptHash bcryptCompare saveOk password
      stored = (true, if saveOk then bcryptHash password else stored) := by
    rw [loginAndMigrate, if_neg hne0]
    simp [hv, hplain]
  refine ⟨by rw [hrun], ?_, ?_⟩
  · intro hs
    rw [hrun]
    simp only [hs, if_true]
    refine ⟨by simp [isHashed, hne, hfmt], ?_, trivial⟩
    intro h
    have h' : bcryptHash password = stored := h
    rw [h'] at hfmt
    rw [hfmt] at hmark
    exact Bool.noConfusion hmark
  · intro hs
    rw [hrun]
    simp [hs]

/-- C6 witness: the migration run on the stored plaintext credential
"abc123" with a bcrypt model that prepends `$2b$`, once with the re-save
write succeeding and once with it failing. -/
theorem C6_witness :
    (verifyPassword (fun _ _ => false) "abc123" "abc123" = true ↔
      ("abc123" : String) = "abc123") ∧
    isHashed (some (loginAndMigrate (fun p => "$2b$" ++ p) (fun _ _ => false)
      true "abc123" "abc123").2) = true ∧
    (loginAndMigrate (fun p => "$2b$" ++ p) (fun _ _ => false)
      true "abc123" "abc123").2 ≠ "abc123" ∧
    (loginAndMigrate (fun p => "$2b$" ++ p) (fun _ _ => false)
      false "abc123" "abc123").2 = "abc123" := by
  have ht := C6_legacyPasswordMigration (fun p => "$2b$" ++ p)
    (fun _ _ => false) true "abc123" "abc123" (by decide) (by decide)
  have hf := C6_legacyPasswordMigration (fun p => "$2b$" ++ p)
    (fun _ _ => false) false "abc123" "abc123" (by decide) (by decide)
  refine ⟨ht.1, ((ht.2 rfl (by decide)).2.1 rfl).1,
    ((ht.2 rfl (by decide)).2.1 rfl).2.1, (hf.2 rfl (by decide)).2.2 rfl⟩

/-- A failure-free transaction inserts exactly `rowsOf` and consumes one
query and one SERIAL id per account. -/
theorem insertLoop_noFail (enc : Bool) (f : String → Except String String)
    (scope : Option Nat) (qfail : Nat → Bool) (hq : ∀ k, qfail k = false) :
    ∀ (L : List Account) (acc : List DbAccountRow) (nid q : Nat),
      insertLoop enc f scope qfail L acc nid q =
        some (acc ++ rowsOf enc f scope L nid, nid + L.length, q + L.length) := by
  intro L
  induction L with
  | nil => intro acc nid q; simp [insertLoop, rowsOf]
  | cons a rest ih =>
    intro acc nid q
    by_cases he : (enc && truthy a.token) = true
    · cases hfa : f (a.token.getD "") with
      | ok ct =>
        rw [insertLoop, if_pos he, hfa, hq q]
        simp only [Bool.false_eq_true, if_false]
        rw [ih]
        simp only [rowsOf, he, hfa, if_true, List.append_assoc,
          List.singleton_append, Option.some.injEq, Prod.mk.injEq,
          List.length_cons]
        exact ⟨trivial, by omega, by omega⟩
      | error e =>
        rw [insertLoop, if_pos he, hfa, hq q]
        simp only [Bool.false_eq_true, if_false]
        rw [ih]
        simp only [rowsOf, he, hfa, if_true, List.append_assoc,
          List.singleton_append, Option.some.injEq, Prod.mk.injEq,
          List.length_cons]
        exact ⟨trivial, by omega, by omega⟩
    · rw [insertLoop, if_neg he, hq q]
      simp only [Bool.false_eq_true, if_false]
      rw [ih]
      simp only [rowsOf, he, Bool.false_eq_true, if_false, List.append_assoc,
        List.singleton_append, Option.some.injEq, Prod.mk.injEq,
        List.length_cons]
      exact ⟨trivial, by omega, by omega⟩

/-- Every row `rowsOf` produces carries the scope as its `user_id`. -/
theorem rowsOf_userId (enc : Bool) (f : String → Except String String)
    (scope : Option Nat) :
    ∀ (L : List Account) (nid : Nat) (r : DbAccountRow),
      r ∈ rowsOf enc f scope L nid → r.userId = scope := by
  intro L
  induction L with
  | nil => intro nid r hr; simp [rowsOf] at hr
  | cons a rest ih =>
    intro nid r hr
    rw [rowsOf] at hr
    rcases List.mem_cons.mp hr with h | h
    · subst h
      by_cases he : (enc && truthy a.token) = true
      · cases hfa : f (a.token.getD "") <;> simp [he, hfa]
      · simp [he]
    · exact ih (nid + 1) r h

/-- The ids of `rowsOf` lie in `[nid, nid + length)`. -/
theorem rowsOf_idBounds (enc : Bool) (f : String → Except String String)
    (scope : Option Nat) :
    ∀ (L : List Account) (nid : Nat) (r : DbAccountRow),
      r ∈ rowsOf enc f scope L nid → nid ≤ r.id ∧ r.id < nid + L.length := by
  intro L
  induction L with
  | nil => intro nid r hr; simp [rowsOf] at hr
  | cons a rest ih =>
    intro nid r hr
    rw [rowsOf] at hr
    rcases List.mem_cons.mp hr with h | h
    · subst h
      have : (if enc && truthy a.token then
          match f (a.token.getD "") with
          | Except.ok ct => (⟨nid, scope, a.name, none, some ct⟩ : DbAccountRow)
          | Except.error _ => ⟨nid, scope, a.name, a.token, none⟩
        else ⟨nid, scope, a.name, a.token, none⟩).id = nid := by
        by_cases he : (enc && truthy a.token) = true
        · cases hfa : f (a.token.getD "") <;> simp [he, hfa]
        · simp [he]
      rw [this]
      simp
    · have := ih (nid + 1) r h
      constructor
      · omega
      · simp only [List.length_cons]
        omega

/-- `rowsOf` lists its rows in strictly increasing id order. -/
theorem rowsOf_pairwise (enc : Bool) (f : String → Except String String)
    (scope : Option Nat) :
    ∀ (L : List Account) (nid : Nat),
      (rowsOf enc f scope L nid).Pairwise (fun a b => a.id < b.id) := by
  intro L
  induction L with
  | nil => intro nid; simp [rowsOf]
  | cons a rest ih =>
    intro nid
    rw [rowsOf]
    refine List.pairwise_cons.mpr ⟨?_, ih (nid + 1)⟩
    intro r hr
    have hb := (rowsOf_idBounds enc f scope rest (nid + 1) r hr).1
    have : (if enc && truthy a.token then
        match f (a.token.getD "") with
        | Except.ok ct => (⟨nid, scope, a.name, none, some ct⟩ : DbAccountRow)
        | Except.error _ => ⟨nid, scope, a.name, a.token, none⟩
      else ⟨nid, scope, a.name, a.token, none⟩).id = nid := by
      by_cases he : (enc && truthy a.token) = true
      · cases hfa : f (a.token.getD "") <;> simp [he, hfa]
      · simp [he]
    rw [this]
    omega

/-- `ORDER BY id` leaves a table already in increasing id order as it is. -/
theorem sortById_eq_self (rows : List DbAccountRow)
    (h : rows.Pairwise (fun a b => a.id < b.id)) : sortById rows = rows :=
  List.Sorted.insertionSort_eq (h.imp (fun hab => le_of_lt hab))

/-- Decrypting the freshly inserted rows recovers each account's name and
clear token, provided encryption round-trips on every truthy token. -/
theorem dbDecryptRow_rowsOf (enc : Bool)
    (f d : String → Except String String) (scope : Option Nat) :
    ∀ (L : List Account) (nid : Nat),
      (∀ a ∈ L, truthy a.token = true →
        ∃ ct, f (a.token.getD "") = Except.ok ct ∧ ct ≠ "" ∧
          d ct = Except.ok (a.token.getD "")) →
      (rowsOf enc f scope L nid).map (dbDecryptRow enc d) =
        L.map (fun a => Account.mk a.name a.token none) := by
  intro L
  induction L with
  | nil => intro nid _; simp [rowsOf]
  | cons a rest ih =>
    intro nid hrt
    have hrest : ∀ b ∈ rest, truthy b.token = true →
        ∃ ct, f (b.token.getD "") = Except.ok ct ∧ ct ≠ "" ∧
          d ct = Except.ok (b.token.getD "") := by
      intro b hb; exact hrt b (List.mem_cons_of_mem a hb)
    rw [rowsOf, List.map_cons, List.map_cons, ih (nid + 1) hrest]
    refine congrArg (fun x => x :: rest.map (fun a => Account.mk a.name a.token none)) ?_
    by_cases ht : truthy a.token = true
    · by_cases henc : enc = true
      · obtain ⟨ct, hfct, hctne, hdct⟩ := hrt a (by simp) ht
        have hmatch : (enc && truthy a.token) = true := by
          rw [henc, ht]; rfl
        rw [if_pos hmatch, hfct]
        have htct : truthy (some ct) = true := by
          simp [truthy, hctne]
        simp only [dbDecryptRow, henc, htct, Bool.and_self, if_true]
        simp only [Option.getD_some]
        rw [hdct]
        obtain ⟨s, hs⟩ : ∃ s, a.token = some s := by
          cases hat : a.token with
          | none => rw [hat] at ht; simp [truthy] at ht
          | some s => exact ⟨s, rfl⟩
        rw [hs]
        simp [truthy] at ht ⊢
      · have hmatch : (enc && truthy a.token) = false := by
          cases henc' : enc with
          | false => rfl
          | true => exact absurd henc' henc
        rw [if_neg (show ¬((enc && truthy a.token) = true) by simp [hmatch])]
        simp [dbDecryptRow, truthy]
    · have hmatch : (enc && truthy a.token) = false := by
        cases h : truthy a.token with
        | false => simp
        | true => exact absurd h ht
      rw [if_neg (show ¬((enc && truthy a.token) = true) by simp [hmatch])]
      simp [dbDecryptRow, truthy]

/-- C4: relational `saveAccounts` is one transaction doing delete-by-scope
then bulk-insert: a failure-free run commits exactly the prior table minus
the scope's rows plus one fresh row per account; whenever the call reports
failure the table (hence the stored account set of every scope) is exactly
as before; a failing DELETE makes the call report failure. -/
theorem C4_saveAccounts_transaction (enc : Bool)
    (f : String → Except String String) (scope : Option Nat)
    (L : List Account) (qfail : Nat → Bool) (st : DbState) :
    ((∀ k, qfail k = false) →
      dbSaveAccounts enc f scope L qfail st =
        (true, ⟨st.rows.filter (fun r => !(r.userId = scope : Bool)) ++
            rowsOf enc f scope L st.nextId, st.nextId + L.length⟩)) ∧
    ((dbSaveAccounts enc f scope L qfail st).1 = false →
      (dbSaveAccounts enc f scope L qfail st).2 = st) ∧
    (qfail 0 = true → dbSaveAccounts enc f scope L qfail st = (false, st)) := by
  refine ⟨?_, ?_, ?_⟩
  · intro hq
    rw [dbSaveAccounts, if_neg (by simp [hq 0]),
      insertLoop_noFail enc f scope qfail hq L [] st.nextId 1]
    simp [hq (1 + L.length)]
  · intro hfalse
    rw [dbSaveAccounts] at hfalse ⊢
    by_cases h0 : qfail 0 = true
    · rw [if_pos h0]
    · rw [if_neg h0] at hfalse ⊢
      cases hloop : insertLoop enc f scope qfail L [] st.nextId 1 with
      | none => simp
      | some res =>
        rw [hloop] at hfalse
        obtain ⟨ins, nid, q⟩ := res
        simp only at hfalse ⊢
        by_cases hc : qfail q = true
        · simp [hc]
        · simp [hc] at hfalse
  · intro h0
    rw [dbSaveAccounts, if_pos h0]

/-- C4 witness: the transaction run on a concrete two-row table — a
failure-free save replaces the scope's rows, a save whose DELETE fails
returns false and leaves the table untouched. -/
theorem C4_witness :
    dbSaveAccounts false (fun s => Except.ok s) (some 1)
        [⟨"n1", some "t1", none⟩] (fun _ => false)
        ⟨[⟨1, some 1, "old", some "told", none⟩,
          ⟨2, none, "g", some "tg", none⟩], 3⟩ =
      (true, ⟨[⟨2, none, "g", some "tg", none⟩,
               ⟨3, some 1, "n1", some "t1", none⟩], 4⟩) ∧
    dbSaveAccounts false (fun s => Except.ok s) (some 1)
        [⟨"n1", some "t1", none⟩] (fun _ => true)
        ⟨[⟨1, some 1, "old", some "told", none⟩,
          ⟨2, none, "g", some "tg", none⟩], 3⟩ =
      (false, ⟨[⟨1, some 1, "old", some "told", none⟩,
                ⟨2, none, "g", some "tg", none⟩], 3⟩) := by
  have h := C4_saveAccounts_transaction false (fun s => Except.ok s) (some 1)
    [⟨"n1", some "t1", none⟩] (fun _ => false)
    ⟨[⟨1, some 1, "old", some "told", none⟩,
      ⟨2, none, "g", some "tg", none⟩], 3⟩
  have h2 := C4_saveAccounts_transaction false (fun s => Except.ok s) (some 1)
    [⟨"n1", some "t1", none⟩] (fun _ => true)
    ⟨[⟨1, some 1, "old", some "told", none⟩,
      ⟨2, none, "g", some "tg", none⟩], 3⟩
  constructor
  · rw [h.1 (fun k => rfl)]
    decide
  · exact h2.2.2 rfl

/-- A failure-free relational `saveAccounts` commits delete-by-scope then
the freshly built rows, bumping the SERIAL id once per account. -/
theorem dbSaveAccounts_noFail (enc : Bool)
    (f : String → Except String String) (scope : Option Nat)
    (L : List Account) (qfail : Nat → Bool) (st : DbState)
    (hq : ∀ k, qfail k = false) :
    dbSaveAccounts enc f scope L qfail st =
      (true, ⟨st.rows.filter (fun r => !(r.userId = scope : Bool)) ++
          rowsOf enc f scope L st.nextId, st.nextId + L.length⟩) := by
  rw [dbSaveAccounts, if_neg (by simp [hq 0]),
    insertLoop_noFail enc f scope qfail hq L [] st.nextId 1]
  simp [hq (1 + L.length)]

/-- C3 counterexample: in the relational backend with the global (absent)
scope, after a fully successful `saveAccounts(null, L)` over a table that
holds one user-owned account, `loadAccounts(null)` — whose query has no
WHERE clause when the scope is null — returns the user-owned account
followed by L, not exactly L. -/
theorem C3_counterexample :
    dbSaveAccounts false (fun sec => Except.ok sec) none
        [⟨"global", some "tok", none⟩] (fun _ => false)
        ⟨[⟨1, some 1, "owned", some "usertok", none⟩], 2⟩ =
      (true, ⟨[⟨1, some 1, "owned", some "usertok", none⟩,
               ⟨2, none, "global", some "tok", none⟩], 3⟩) ∧
    dbLoadAccounts false (fun sec => Except.ok sec) none false
        ⟨[⟨1, some 1, "owned", some "usertok", none⟩,
          ⟨2, none, "global", some "tok", none⟩], 3⟩ =
      [⟨"owned", some "usertok", none⟩, ⟨"global", some "tok", none⟩] ∧
    ([⟨"owned", some "usertok", none⟩, ⟨"global", some "tok", none⟩] :
        List Account) ≠ [⟨"global", some "tok", none⟩] := by
  refine ⟨by decide, by decide, by decide⟩

/-- C3 (amended): after a successful `saveAccounts(scope, L)` over
well-formed input (no record carries both a clear and an encrypted token,
and encryption round-trips every truthy token), `loadAccounts(scope)`
returns exactly the names and tokens of L in order — for the file backend
with any scope (it ignores scope entirely), and for the relational backend
with a user scope. For the relational backend with the absent scope,
`loadAccounts` returns every user-owned account as well (its query drops
the WHERE clause), followed by L, so exact-L holds there only when no
user-owned accounts are stored. -/
theorem C3_replaceSemantics (enc : Bool)
    (f d : String → Except String String) (L : List Account)
    (st : FileContent) (dbst : DbState) (uid : Nat) (qfail : Nat → Bool)
    (hinv : ∀ a ∈ L, truthy a.token = false → truthy a.encryptedToken = false)
    (hrt : ∀ a ∈ L, truthy a.token = true →
      ∃ ct, f (a.token.getD "") = Except.ok ct ∧ ct ≠ "" ∧
        d ct = Except.ok (a.token.getD ""))
    (hq : ∀ k, qfail k = false) (hWF : dbst.WF) :
    ((fileLoadAccounts enc d
        (fileSaveAccounts enc f L true st).2).map accountView =
      L.map accountView) ∧
    (dbLoadAccounts enc d (some uid) false
        (dbSaveAccounts enc f (some uid) L qfail dbst).2 =
      L.map (fun a => Account.mk a.name a.token none)) ∧
    (dbLoadAccounts enc d none false
        (dbSaveAccounts enc f none L qfail dbst).2 =
      (dbst.rows.filter (fun r => !(r.userId = (none : Option Nat) : Bool))).map
          (dbDecryptRow enc d) ++
        L.map (fun a => Account.mk a.name a.token none)) := by
  have hsorted : ∀ scope : Option Nat,
      sortById (dbst.rows.filter (fun r => !(r.userId = scope : Bool)) ++
          rowsOf enc f scope L dbst.nextId) =
        dbst.rows.filter (fun r => !(r.userId = scope : Bool)) ++
          rowsOf enc f scope L dbst.nextId := by
    intro scope
    apply sortById_eq_self
    rw [List.pairwise_append]
    refine ⟨List.Pairwise.sublist (List.filter_sublist _) hWF.1,
      rowsOf_pairwise enc f scope L dbst.nextId, ?_⟩
    intro a ha b hb
    have ha' : a ∈ dbst.rows := (List.mem_filter.mp ha).1
    have h1 : a.id < dbst.nextId := hWF.2 a ha'
    have h2 := (rowsOf_idBounds enc f scope L dbst.nextId b hb).1
    omega
  refine ⟨?_, ?_, ?_⟩
  · -- file backend
    have hpoint : ∀ a ∈ L,
        accountView (decryptAccountOnLoad d (encryptAccountForSave f a)) =
          accountView a := by
      intro a ha
      by_cases ht : truthy a.token = true
      · obtain ⟨ct, hfct, hctne, hdct⟩ := hrt a ha ht
        rw [encryptAccountForSave, if_pos ht, hfct]
        rw [decryptAccountOnLoad]
        have htct : truthy (some ct) = true := by simp [truthy, hctne]
        rw [if_pos htct]
        simp only [Option.getD_some, hdct]
        obtain ⟨tok, htok⟩ : ∃ tok, a.token = some tok := by
          cases hat : a.token with
          | none => rw [hat] at ht; simp [truthy] at ht
          | some tok => exact ⟨tok, rfl⟩
        simp [accountView, htok]
      · have ht' : truthy a.token = false := by
          cases h : truthy a.token with
          | false => rfl
          | true => exact absurd h ht
        rw [encryptAccountForSave, if_neg (by simp [ht'])]
        rw [decryptAccountOnLoad, if_neg (by simp [hinv a ha ht'])]
    cases henc : enc with
    | false => simp [fileSaveAccounts, fileLoadAccounts]
    | true =>
      simp only [fileSaveAccounts, fileLoadAccounts, if_pos, if_true]
      rw [List.map_map, List.map_map]
      exact List.map_congr_left (fun a ha => hpoint a ha)
  · -- relational backend, user scope
    rw [dbSaveAccounts_noFail enc f (some uid) L qfail dbst hq]
    rw [dbLoadAccounts]
    simp only [if_neg (by simp : ¬(false = true))]
    rw [hsorted (some uid), List.filter_append]
    have hkept : (dbst.rows.filter
        (fun r => !(r.userId = (some uid : Option Nat) : Bool))).filter
          (fun r => r.userId = some uid) = [] := by
      rw [List.filter_eq_nil_iff]
      intro a ha
      have := (List.mem_filter.mp ha).2
      simpa using this
    have hins : (rowsOf enc f (some uid) L dbst.nextId).filter
        (fun r => r.userId = some uid) = rowsOf enc f (some uid) L dbst.nextId := by
      rw [List.filter_eq_self]
      intro a ha
      simpa using rowsOf_userId enc f (some uid) L dbst.nextId a ha
    rw [hkept, hins, List.nil_append]
    exact dbDecryptRow_rowsOf enc f d (some uid) L dbst.nextId hrt
  · -- relational backend, absent scope
    rw [dbSaveAccounts_noFail enc f none L qfail dbst hq]
    rw [dbLoadAccounts]
    simp only [if_neg (by simp : ¬(false = true))]
    rw [hsorted none, List.map_append]
    rw [dbDecryptRow_rowsOf enc f d none L dbst.nextId hrt]

/-- C3 witness: one encrypted account round-trips through both backends,
with a concrete invertible cipher and a well-formed one-row table. -/
theorem C3_witness :
    ((fileLoadAccounts true
        (fun sec => if sec = "Etok" then Except.ok "tok" else Except.error "bad")
        (fileSaveAccounts true (fun sec => Except.ok ("E" ++ sec))
          [⟨"n", some "tok", none⟩] true FileContent.missing).2).map accountView =
      [⟨"n", some "tok", none⟩].map accountView) ∧
    (dbLoadAccounts true
        (fun sec => if sec = "Etok" then Except.ok "tok" else Except.error "bad")
        (some 7) false
        (dbSaveAccounts true (fun sec => Except.ok ("E" ++ sec)) (some 7)
          [⟨"n", some "tok", none⟩] (fun _ => false)
          ⟨[⟨1, some 1, "owned", some "ut", none⟩], 2⟩).2 =
      ([⟨"n", some "tok", none⟩] : List Account).map
        (fun a => Account.mk a.name a.token none)) := by
  have h := C3_replaceSemantics true (fun sec => Except.ok ("E" ++ sec))
    (fun sec => if sec = "Etok" then Except.ok "tok" else Except.error "bad")
    [⟨"n", some "tok", none⟩] FileContent.missing
    ⟨[⟨1, some 1, "owned", some "ut", none⟩], 2⟩ 7 (fun _ => false)
    (by intro a ha ht; simp at ha; subst ha; simp [truthy] at ht)
    (by intro a ha ht
        simp at ha; subst ha
        exact ⟨"Etok", rfl, by decide, rfl⟩)
    (fun k => rfl)
    ⟨by simp, by intro r hr; simp at hr; subst hr; decide⟩
  exact ⟨h.1, h.2.1⟩

/-- C5: a record whose ciphertext fails to decrypt never aborts
`loadAccounts` — it comes back with its stored fallback form — and every
other record of the same call is decrypted normally: the load is a
per-record map, the corrupted record maps to itself (file mode) or to its
clear-stored column (database mode), and a record whose ciphertext
decrypts maps to the decrypted account. -/
theorem C5_decryptionIsolation (d : String → Except String String)
    (accounts : List Account) :
    (fileLoadAccounts true d (FileContent.ok accounts) =
      accounts.map (decryptAccountOnLoad d)) ∧
    (∀ a e, truthy a.encryptedToken = true →
      d (a.encryptedToken.getD "") = Except.error e →
      decryptAccountOnLoad d a = a) ∧
    (∀ a t, truthy a.encryptedToken = true →
      d (a.encryptedToken.getD "") = Except.ok t →
      decryptAccountOnLoad d a =
        { name := a.name, token := some t, encryptedToken := none }) ∧
    (∀ a, truthy a.encryptedToken = false → decryptAccountOnLoad d a = a) ∧
    (∀ r e, truthy r.encryptedToken = true →
      d (r.encryptedToken.getD "") = Except.error e →
      dbDecryptRow true d r =
        { name := r.name, token := r.token, encryptedToken := none }) := by
  refine ⟨rfl, ?_, ?_, ?_, ?_⟩
  · intro a e ht herr
    rw [decryptAccountOnLoad, if_pos ht, herr]
  · intro a t ht hok
    rw [decryptAccountOnLoad, if_pos ht, hok]
  · intro a ht
    rw [decryptAccountOnLoad, if_neg (by simp [ht])]
  · intro r e ht herr
    rw [dbDecryptRow, if_pos (by simp [ht]), herr]

/-- C5 witness: a three-account load where the middle ciphertext is
corrupt — it comes back in its stored form, the others decrypted. -/
theorem C5_witness :
    fileLoadAccounts true
        (fun sec => if sec = "bad" then Except.error "boom" else Except.ok ("D" ++ sec))
        (FileContent.ok
          [⟨"a1", none, some "c1"⟩, ⟨"a2", some "fallback", some "bad"⟩,
           ⟨"a3", none, some "c3"⟩]) =
      [⟨"a1", some "Dc1", none⟩, ⟨"a2", some "fallback", some "bad"⟩,
       ⟨"a3", some "Dc3", none⟩] := by
  have h := C5_decryptionIsolation
    (fun sec => if sec = "bad" then Except.error "boom" else Except.ok ("D" ++ sec))
    [⟨"a1", none, some "c1"⟩, ⟨"a2", some "fallback", some "bad"⟩,
     ⟨"a3", none, some "c3"⟩]
  rw [h.1, List.map_cons, List.map_cons, List.map_cons, List.map_nil,
    h.2.2.1 ⟨"a1", none, some "c1"⟩ "Dc1" (by decide) rfl,
    h.2.1 ⟨"a2", some "fallback", some "bad"⟩ "boom" (by decide) rfl,
    h.2.2.1 ⟨"a3", none, some "c3"⟩ "Dc3" (by decide) rfl]

/-- C9: `loadAccounts` is total at its interface — a missing accounts
file, an unreadable or unparsable accounts file, and a failed database
query all yield the empty list instead of an exception, for both
backends. -/
theorem C9_loadAccounts_total (enc : Bool)
    (d : String → Except String String) (scope : Option Nat) (st : DbState) :
    fileLoadAccounts enc d FileContent.missing = [] ∧
    fileLoadAccounts enc d FileContent.corrupt = [] ∧
    dbLoadAccounts enc d scope true st = [] := by
  refine ⟨rfl, rfl, ?_⟩
  simp [dbLoadAccounts]

/-- C7 counterexample: in the file backend, `deleteUser(1)` on a store
holding user 1 and a webhook owned by user 1 returns true, removes the
user record, and leaves the user-owned webhook in the webhooks file —
there is no explicit cleanup. -/
theorem C7_counterexample :
    (fileDeleteUser 1
        ⟨[⟨1, "alice", "h", "admin", 0⟩], FileContent.missing,
         [⟨"w1", some 1, "hook", "https://x.example"⟩]⟩).1 = true ∧
    (fileDeleteUser 1
        ⟨[⟨1, "alice", "h", "admin", 0⟩], FileContent.missing,
         [⟨"w1", some 1, "hook", "https://x.example"⟩]⟩).2.users = [] ∧
    (fileDeleteUser 1
        ⟨[⟨1, "alice", "h", "admin", 0⟩], FileContent.missing,
         [⟨"w1", some 1, "hook", "https://x.example"⟩]⟩).2.webhooks =
      [⟨"w1", some 1, "hook", "https://x.example"⟩] := by
  refine ⟨by decide, by decide, by decide⟩

/-- C7 (amended): in the relational backend, `deleteUser` cascades through
the schema's referential-integrity rules — after a successful delete no
user row, account row or webhook row of that user remains; in the file
backend, `deleteUser` removes only the user record from the users file and
performs no cleanup, leaving the accounts file and the webhooks file (and
so that user's webhooks) exactly as they were. -/
theorem C7_deleteUserCascade (uid : Nat) (db : DbFullState) (fst : FileStore) :
    ((dbDeleteUser uid db).1 = db.users.any (fun u => u.id = uid)) ∧
    (∀ u ∈ (dbDeleteUser uid db).2.users, u.id ≠ uid) ∧
    (∀ a ∈ (dbDeleteUser uid db).2.accounts, a.userId ≠ some uid) ∧
    (∀ w ∈ (dbDeleteUser uid db).2.webhooks, w.userId ≠ some uid) ∧
    ((fileDeleteUser uid fst).2.accountsFile = fst.accountsFile) ∧
    ((fileDeleteUser uid fst).2.webhooks = fst.webhooks) := by
  refine ⟨rfl, ?_, ?_, ?_, ?_, ?_⟩
  · intro u hu
    have := (List.mem_filter.mp hu).2
    simpa using this
  · intro a ha
    have := (List.mem_filter.mp ha).2
    simpa using this
  · intro w hw
    have := (List.mem_filter.mp hw).2
    simpa using this
  · rw [fileDeleteUser]
    by_cases h : (fst.users.any (fun u => u.id = uid)) = true
    · rw [if_pos h]
    · rw [if_neg h]
  · rw [fileDeleteUser]
    by_cases h : (fst.users.any (fun u => u.id = uid)) = true
    · rw [if_pos h]
    · rw [if_neg h]

/-- C7 witness: the cascade and no-cleanup facts at a concrete relational
state and the concrete file store of the counterexample's shape. -/
theorem C7_witness :
    (∀ w ∈ (dbDeleteUser 1
        ⟨[⟨1, "alice", "h", "admin"⟩],
         [⟨1, some 1, "acc", some "t", none⟩],
         [⟨"w1", some 1, "hook", "https://x.example"⟩]⟩).2.webhooks,
      w.userId ≠ some 1) ∧
    (∀ a ∈ (dbDeleteUser 1
        ⟨[⟨1, "alice", "h", "admin"⟩],
         [⟨1, some 1, "acc", some "t", none⟩],
         [⟨"w1", some 1, "hook", "https://x.example"⟩]⟩).2.accounts,
      a.userId ≠ some 1) ∧
    (fileDeleteUser 1
        ⟨[⟨1, "alice", "h", "admin", 0⟩], FileContent.missing,
         [⟨"w2", some 1, "hook", "https://y.example"⟩]⟩).2.webhooks =
      [⟨"w2", some 1, "hook", "https://y.example"⟩] := by
  have h := C7_deleteUserCascade 1
    ⟨[⟨1, "alice", "h", "admin"⟩],
     [⟨1, some 1, "acc", some "t", none⟩],
     [⟨"w1", some 1, "hook", "https://x.example"⟩]⟩
    ⟨[⟨1, "alice", "h", "admin", 0⟩], FileContent.missing,
     [⟨"w2", some 1, "hook", "https://y.example"⟩]⟩
  exact ⟨h.2.2.2.1, h.2.2.1, h.2.2.2.2.2⟩

/-- C8: retention is asymmetric — every file-mode `recordUsage` write
physically keeps only records strictly newer than 30 days (so a record 31
days old is absent after any later write), while database-mode
`recordUsage` is a pure append that never deletes, and
`getUsageHistory(days)` excludes old rows only through its recency filter,
returning results ascending by record time. -/
theorem C8_retentionAsymmetry (now : Int) (name : String) (amount days : Int)
    (acct : Option String) (hist : List UsageRecord) (st : DbUsageState) :
    (∀ r ∈ fileRecordUsage now name amount hist,
      now - THIRTY_DAYS_MS < r.recordedAt) ∧
    (∀ r : UsageRecord, r.recordedAt ≤ now - THIRTY_DAYS_MS →
      r ∉ fileRecordUsage now name amount hist) ∧
    ((dbRecordUsage now name amount st).rows =
      st.rows ++ [⟨st.nextId, name, amount, now⟩]) ∧
    (∀ r ∈ st.rows, r ∈ (dbRecordUsage now name amount st).rows) ∧
    (∀ rec ∈ dbGetUsageHistory now acct days st,
      now - days * (24 * 60 * 60 * 1000) < rec.recordedAt) ∧
    (dbGetUsageHistory now acct days st).Pairwise
      (fun a b => a.recordedAt ≤ b.recordedAt) := by
  have hmem : ∀ r ∈ fileRecordUsage now name amount hist,
      now - THIRTY_DAYS_MS < r.recordedAt := by
    intro r hr
    have := (List.mem_filter.mp hr).2
    simpa using this
  refine ⟨hmem, ?_, rfl, ?_, ?_, ?_⟩
  · intro r hold hr
    exact absurd (hmem r hr) (by omega)
  · intro r hr
    rw [dbRecordUsage]
    exact List.mem_append_left _ hr
  · intro rec hrec
    obtain ⟨r, hr, hproj⟩ := List.mem_map.mp hrec
    have hr' : r ∈ st.rows.filter (fun r =>
        r.recordedAt > now - days * (24 * 60 * 60 * 1000) &&
          (acct.isNone || acct = some r.accountName)) :=
      (List.mem_insertionSort _).mp hr
    have := (List.mem_filter.mp hr').2
    have hgt : now - days * (24 * 60 * 60 * 1000) < r.recordedAt := by
      have hsplit := (Bool.and_eq_true _ _).mp this
      simpa using hsplit.1
    rw [← hproj]
    exact hgt
  · rw [dbGetUsageHistory]
    haveI htot : IsTotal DbUsageRow (fun a b => a.recordedAt ≤ b.recordedAt) :=
      ⟨fun a b => le_total a.recordedAt b.recordedAt⟩
    haveI htr : IsTrans DbUsageRow (fun a b => a.recordedAt ≤ b.recordedAt) :=
      ⟨fun _ _ _ hab hbc => le_trans hab hbc⟩
    refine List.Pairwise.map _ ?_ (List.sorted_insertionSort _ _)
    intro a b hab
    exact hab

/-- C8 witness: a record written at time 0, revisited 31 days later — the
file write prunes it, the database keeps the row yet filters it out of the
30-day query, and the query's output is sorted. -/
theorem C8_witness :
    ((⟨"acc", 5, 0⟩ : UsageRecord) ∉
      fileRecordUsage (31 * 24 * 60 * 60 * 1000) "acc" 7 [⟨"acc", 5, 0⟩]) ∧
    ((⟨1, "acc", 5, 0⟩ : DbUsageRow) ∈
      (dbRecordUsage (31 * 24 * 60 * 60 * 1000) "acc" 7
        ⟨[⟨1, "acc", 5, 0⟩], 2⟩).rows) ∧
    (∀ rec ∈ dbGetUsageHistory (31 * 24 * 60 * 60 * 1000) none 30
        (dbRecordUsage (31 * 24 * 60 * 60 * 1000) "acc" 7
          ⟨[⟨1, "acc", 5, 0⟩], 2⟩),
      (31 * 24 * 60 * 60 * 1000 : Int) - 30 * (24 * 60 * 60 * 1000) <
        rec.recordedAt) := by
  have h1 := C8_retentionAsymmetry (31 * 24 * 60 * 60 * 1000) "acc" 7 30 none
    [⟨"acc", 5, 0⟩] ⟨[⟨1, "acc", 5, 0⟩], 2⟩
  have h2 := C8_retentionAsymmetry (31 * 24 * 60 * 60 * 1000) "acc" 7 30 none
    [⟨"acc", 5, 0⟩]
    (dbRecordUsage (31 * 24 * 60 * 60 * 1000) "acc" 7 ⟨[⟨1, "acc", 5, 0⟩], 2⟩)
  refine ⟨h1.2.1 ⟨"acc", 5, 0⟩ (by decide), ?_, h2.2.2.2.2.1⟩
  exact h1.2.2.2.1 ⟨1, "acc", 5, 0⟩ (by decide)

/-- C10: in the file backend `createUser` assigns `id = users.length + 1`,
so ids are reused once a user has been deleted: creating "a" and "b",
deleting user 1, then creating "c" yields a store whose two records both
carry id 2. -/
theorem C10_userIdReuse :
    (∀ (username passwordHash role : String) (now : Nat)
        (users : List FileUser) (id : Nat) (users' : List FileUser),
      fileCreateUser username passwordHash role now users =
        Except.ok (id, users') → id = users.length + 1) ∧
    fileCreateUser "a" "h1" "user" 0 [] =
      Except.ok (1, [⟨1, "a", "h1", "user", 0⟩]) ∧
    fileCreateUser "b" "h2" "user" 0 [⟨1, "a", "h1", "user", 0⟩] =
      Except.ok (2, [⟨1, "a", "h1", "user", 0⟩, ⟨2, "b", "h2", "user", 0⟩]) ∧
    fileDeleteUser 1 ⟨[⟨1, "a", "h1", "user", 0⟩, ⟨2, "b", "h2", "user", 0⟩],
        FileContent.missing, []⟩ =
      (true, ⟨[⟨2, "b", "h2", "user", 0⟩], FileContent.missing, []⟩) ∧
    fileCreateUser "c" "h3" "user" 0 [⟨2, "b", "h2", "user", 0⟩] =
      Except.ok (2, [⟨2, "b", "h2", "user", 0⟩, ⟨2, "c", "h3", "user", 0⟩]) ∧
    (⟨2, "b", "h2", "user", 0⟩ : FileUser) ≠ ⟨2, "c", "h3", "user", 0⟩ ∧
    FileUser.id ⟨2, "b", "h2", "user", 0⟩ = FileUser.id ⟨2, "c", "h3", "user", 0⟩ := by
  refine ⟨?_, rfl, rfl, by decide, rfl, by decide, rfl⟩
  intro username passwordHash role now users id users' h
  rw [fileCreateUser] at h
  by_cases hd : (users.any (fun u => u.username = username)) = true
  · rw [if_pos hd] at h
    exact absurd h (by simp)
  · rw [if_neg hd] at h
    have := Except.ok.inj h
    have hfst := congrArg Prod.fst this
    simpa using hfst.symm

/-- C10 witness: the id formula applied at the post-deletion store, where
it hands out the already-taken id 2. -/
theorem C10_witness : (2 : Nat) = [(⟨2, "b", "h2", "user", 0⟩ : FileUser)].length + 1 := by
  exact C10_userIdReuse.1 "c" "h3" "user" 0 [⟨2, "b", "h2", "user", 0⟩] 2
    [⟨2, "b", "h2", "user", 0⟩, ⟨2, "c", "h3", "user", 0⟩] rfl

end Zeabur
